import Mathlib

/-!
Verification development for the weak-reference discovery and processing
subsystem of a concurrent GC (zReferenceProcessor.cpp and zAddressArray.hpp).
The definitions below are a shallow embedding of the data model and the
operations of that source: heap addresses and colored-pointer values are
natural numbers with 0 as null, heap/barrier collaborators are abstract
predicate parameters, and fallible paths (fatal assertions) return Except.
-/

/-- Reference type tags, the `ReferenceType` enum consumed by the processor.
REF_NONE and REF_OTHER are the tags outside Soft/Weak/Final/Phantom. -/
inductive ReferenceType where
  | REF_NONE
  | REF_OTHER
  | REF_SOFT
  | REF_WEAK
  | REF_FINAL
  | REF_PHANTOM
deriving DecidableEq, Repr

/-- Oracles for the heap and colored-pointer queries used by the processor:
ZHeap::is_young, ZHeap::is_old, ZHeap::is_object_strongly_live and
ZPointer::is_mark_good.  These collaborators live outside the fragment and
are modelled as abstract predicates on addresses / zpointer values. -/
structure GCOracles where
  is_young : Nat → Bool
  is_old : Nat → Bool
  is_object_strongly_live : Nat → Bool
  is_mark_good : Nat → Bool

/-- Fields of a java.lang.ref.Reference object that the processor reads and
writes: the referent (a zpointer field), the discovered field and the next
field (zaddress fields); 0 is null. -/
structure ZRef where
  referent : Nat
  discovered : Nat
  next : Nat
deriving DecidableEq, Repr

/-- Soft reference policy collaborator: should_clear_reference(reference, clock)
(AlwaysClearPolicy / LRUMaxHeapPolicy, selected by set_soft_reference_policy). -/
structure SoftRefPolicy where
  should_clear_reference : Nat → Int → Bool

/-- ZReferenceProcessor::is_inactive (part_000 lines 174-187): a Final reference
is inactive iff its next field is non-null; any other reference is inactive iff
its (healed) referent is null. -/
def is_inactive (refs : Nat → ZRef) (reference : Nat) (referent : Nat)
    (t : ReferenceType) : Bool :=
  if t = .REF_FINAL then (refs reference).next != 0 else referent == 0

/-- ZReferenceProcessor::is_strongly_live (lines 189-192). -/
def is_strongly_live (O : GCOracles) (referent : Nat) : Bool :=
  O.is_young referent || O.is_object_strongly_live referent

/-- ZReferenceProcessor::is_softly_live (lines 194-205): only Soft references
can be softly live; the policy is asked with the current clock. -/
def is_softly_live (pol : SoftRefPolicy) (clock : Int) (reference : Nat)
    (t : ReferenceType) : Bool :=
  if t ≠ .REF_SOFT then false
  else !(pol.should_clear_reference reference clock)

/-- ZReferenceProcessor::should_discover (lines 207-231), in the source's test
order: inactive, young reference, strongly live referent, softly live. -/
def should_discover (O : GCOracles) (pol : SoftRefPolicy) (clock : Int)
    (refs : Nat → ZRef) (reference : Nat) (t : ReferenceType)
    (referent : Nat) : Bool :=
  if is_inactive refs reference referent t then false
  else if O.is_young reference then false
  else if is_strongly_live O referent then false
  else if is_softly_live pol clock reference t then false
  else true

/-- Success oracles for the conditional clean barriers
ZBarrier::clean_barrier_on_{weak,phantom,final}_oop_field: cleaning succeeds
iff the object the current zpointer refers to is no longer alive.  Modelled as
abstract predicates on the loaded referent zpointer. -/
structure ZBarrierModel where
  clean_weak_ok : Nat → Bool
  clean_phantom_ok : Nat → Bool
  clean_final_ok : Nat → Bool

/-- ZReferenceProcessor::try_make_inactive (lines 233-266).  Returns .error ()
for the fatal("Invalid referent type") path, otherwise .ok (kept, r') where
kept mirrors the C++ return value and r' the updated reference: a successful
weak/phantom clean nulls the referent field; a successful final clean keeps the
referent and self-loops the next field. -/
def try_make_inactive (bar : ZBarrierModel) (reference : Nat)
    (t : ReferenceType) (r : ZRef) : Except Unit (Bool × ZRef) :=
  if r.referent == 0 then .ok (false, r)
  else if t = .REF_SOFT ∨ t = .REF_WEAK then
    if bar.clean_weak_ok r.referent then .ok (true, { r with referent := 0 })
    else .ok (false, r)
  else if t = .REF_PHANTOM then
    if bar.clean_phantom_ok r.referent then .ok (true, { r with referent := 0 })
    else .ok (false, r)
  else if t = .REF_FINAL then
    if bar.clean_final_ok r.referent then .ok (true, { r with next := reference })
    else .ok (false, r)
  else .error ()

/-- Projection of a try_make_inactive outcome, for stating concrete
evaluations without decidable equality on Except. -/
def tmiOut (e : Except Unit (Bool × ZRef)) : Option (Bool × ZRef) :=
  match e with
  | .ok x => some x
  | .error _ => none

/-- A record of the dense discovery array: the triple
(referent-field address, discovered-field address, referent address) that
ZAddressArray stores in its three parallel arrays at a common index. -/
structure DenseRec where
  refFieldAddr : Nat
  discFieldAddr : Nat
  referentAddr : Nat
deriving DecidableEq, Repr

/-- Modelled from the spec: round_up_power_of_2 comes from the JDK utility
header utilities/powerOfTwo.hpp, which is not part of the source fragment.
Per the spec's next_pow2, it is the smallest power of two greater than or
equal to its argument (value 1 at 0). -/
def round_up_power_of_2 (n : Nat) : Nat := 2 ^ Nat.clog 2 n

/-- Modelled from the spec: next_power_of_2 (utilities/powerOfTwo.hpp, not in
the fragment) returns the smallest power of two strictly greater than its
argument, i.e. round_up_power_of_2 (v + 1). -/
def next_power_of_2 (v : Nat) : Nat := round_up_power_of_2 (v + 1)

/-- ZAddressArray (zAddressArray.hpp): the three parallel arrays are modelled
as one list of records (kept at equal length in the C++) plus the tracked
capacity. -/
structure ZAddressArrayM where
  recs : List DenseRec
  capacity : Nat
deriving Repr

/-- ZAddressArray::grow (zAddressArray.hpp lines 78-81): the new capacity is
MAX2(8, next_power_of_2(min_capacity - 1)). -/
def growCapacity (min_capacity : Nat) : Nat :=
  max 8 (next_power_of_2 (min_capacity - 1))

/-- ZAddressArray::append (lines 98-106): grow when full, then store the three
values at index _length and bump the length. -/
def ZAddressArrayM.append (arr : ZAddressArrayM) (rec : DenseRec) : ZAddressArrayM :=
  let arr' :=
    if arr.recs.length ≥ arr.capacity then
      { arr with capacity := growCapacity (arr.recs.length + 1) }
    else arr
  { arr' with recs := arr'.recs ++ [rec] }

/-- ZAddressArray::clear_and_reserve (lines 136-147): drop the length, release
the old storage and allocate capacity MAX2(8, next_power_of_2(new_capacity - 1)). -/
def ZAddressArrayM.clear_and_reserve (_arr : ZAddressArrayM)
    (new_capacity : Nat) : ZAddressArrayM :=
  { recs := [], capacity := max 8 (next_power_of_2 (new_capacity - 1)) }

/-- Pointwise update of a Nat-indexed store, used for single field writes. -/
def updFn (f : Nat → Nat) (a v : Nat) : Nat → Nat :=
  fun x => if x = a then v else f x

/-- Flag from zReferenceProcessor.cpp line 50:
static constexpr bool UseGrowableArrayDiscoveredList = false. -/
def UseGrowableArrayDiscoveredList : Bool := false

/-- Per-worker discovery state touched by ZReferenceProcessor::discover: the
per-type discovered counter, this worker's dense array and its emptiness flag,
this worker's intrusive discovered-list head, and the reference-object heap
(fields indexed by reference address). -/
structure DiscoverState where
  discovered_count : ReferenceType → Nat
  weakArray : ZAddressArrayM
  array_empty : Bool
  discovered_list : Nat
  refs : Nat → ZRef

/-- Write the discovered field of one reference object
(reference_set_discovered, lines 96-98). -/
def setDiscovered (refs : Nat → ZRef) (reference d : Nat) : Nat → ZRef :=
  fun a => if a = reference then { refs a with discovered := d } else refs a

/-- Increment one slot of the per-type counter array. -/
def bumpCount (c : ReferenceType → Nat) (t : ReferenceType) : ReferenceType → Nat :=
  fun u => if u = t then c u + 1 else c u

/-- Tags accepted by reference_type_name (lines 60-78); any other tag hits
ShouldNotReachHere there, and the fatal branch of try_make_inactive. -/
def isKnownReferenceType (t : ReferenceType) : Bool :=
  t = .REF_SOFT || t = .REF_WEAK || t = .REF_FINAL || t = .REF_PHANTOM

/-- ZReferenceProcessor::discover (lines 268-315), parameterized over the
UseGrowableArrayDiscoveredList flag tested at line 284 and over whether gc+ref
trace logging is enabled (only then does the log_trace call at line 275
evaluate reference_type_name, which aborts on an unrecognized tag).
has_reference_queue (lines 667-671) and the two field-address getters
(lines 80-90) are abstract parameters.  The REF_FINAL
mark_barrier_on_old_oop_field call affects only mark bits, which are outside
the modelled fields. -/
def discoverImpl (useGrowable traceEnabled : Bool) (hasQueue : Nat → Bool)
    (refFieldAddrOf discFieldAddrOf : Nat → Nat) (s : DiscoverState)
    (reference : Nat) (t : ReferenceType) (referent : Nat) :
    Except Unit DiscoverState :=
  if traceEnabled ∧ ¬ isKnownReferenceType t then .error ()
  else
    let s' := { s with discovered_count := bumpCount s.discovered_count t }
    if useGrowable ∧ t = .REF_WEAK ∧ hasQueue reference = false then
      .ok { s' with
        weakArray := s'.weakArray.append
          ⟨refFieldAddrOf reference, discFieldAddrOf reference, referent⟩,
        array_empty := false,
        refs := setDiscovered s'.refs reference reference }
    else
      .ok { s' with
        refs := setDiscovered s'.refs reference s'.discovered_list,
        discovered_list := reference }

/-- discover as compiled: the flag is the constant false of line 50, and gc+ref
trace logging is disabled (the default). -/
def discover (hasQueue : Nat → Bool) (refFieldAddrOf discFieldAddrOf : Nat → Nat)
    (s : DiscoverState) (reference : Nat) (t : ReferenceType) (referent : Nat) :
    Except Unit DiscoverState :=
  discoverImpl UseGrowableArrayDiscoveredList false hasQueue refFieldAddrOf
    discFieldAddrOf s reference t referent

/-- Projection of a discover outcome onto the resulting state (with a fallback
for the fatal case), for stating concrete evaluations. -/
def discOut (e : Except Unit DiscoverState) (d : DiscoverState) : DiscoverState :=
  match e with
  | .ok s => s
  | .error _ => d

/-- Did the call abort through a fatal assertion? -/
def discFatal (e : Except Unit DiscoverState) : Bool :=
  match e with
  | .ok _ => false
  | .error _ => true

/-- The two typed field stores that the dense-array drain reads and writes:
zptr maps a referent-field address to the zpointer stored there; zaddr maps a
discovered-field address to the zaddress stored there.  They are disjoint by
type, as in the C++ (zpointer* versus zaddress* fields). -/
structure FieldMem where
  zptr : Nat → Nat
  zaddr : Nat → Nat

/-- is_strongly_reachable_fast (lines 114-116): ZPointer::is_mark_good on the
loaded zpointer. -/
def is_strongly_reachable_fast (O : GCOracles) (referent : Nat) : Bool :=
  O.is_mark_good referent

/-- is_strongly_reachable (lines 118-120). -/
def is_strongly_reachable (O : GCOracles) (referent_addr : Nat) : Bool :=
  !O.is_old referent_addr && O.is_object_strongly_live referent_addr

/-- The liveness re-test of the dense-array drain (line 406) on one record,
against a given memory: fast color check on the loaded referent, then the full
query on the remembered referent address. -/
def recReachable (O : GCOracles) (mem : FieldMem) (rec : DenseRec) : Bool :=
  is_strongly_reachable_fast O (mem.zptr rec.refFieldAddr)
    || is_strongly_reachable O rec.referentAddr

/-- The per-record loop of
ZReferenceProcessor::process_worker_discovered_weak_refs_without_queue
(lines 393-419), threading the memory and the running drop count: a record
with a null field address is skipped; a reachable referent drops the record by
nulling its discovered field (counting it); an unreachable referent has its
referent field cleared. -/
def drainLoop (O : GCOracles) : FieldMem → List DenseRec → Nat → FieldMem × Nat
  | mem, [], dropped => (mem, dropped)
  | mem, rec :: rest, dropped =>
    if rec.refFieldAddr = 0 ∨ rec.discFieldAddr = 0 then
      drainLoop O mem rest dropped
    else if recReachable O mem rec then
      drainLoop O { mem with zaddr := updFn mem.zaddr rec.discFieldAddr 0 }
        rest (dropped + 1)
    else
      drainLoop O { mem with zptr := updFn mem.zptr rec.refFieldAddr 0 }
        rest dropped

/-- process_worker_discovered_weak_refs_without_queue (lines 393-421): drain
every record, then clear_and_reserve with the drop count. -/
def process_weak_refs_without_queue (O : GCOracles) (mem : FieldMem)
    (arr : ZAddressArrayM) : FieldMem × ZAddressArrayM :=
  let md := drainLoop O mem arr.recs 0
  (md.1, arr.clear_and_reserve md.2)

/-- Blocking and notification actions of enqueue_references. -/
inductive EnqueueEvent where
  | lockHeapLock
  | notifyAll
deriving DecidableEq, Repr

/-- State touched by ZReferenceProcessor::enqueue_references: the internal
pending head and tail, the runtime-visible pending slot
(Universe::swap_reference_pending_list) and the discovered fields used to link
the lists. -/
structure EnqueueState where
  pending_list : Nat
  pending_list_tail : Nat
  runtime_pending_slot : Nat
  disc : Nat → Nat

/-- ZReferenceProcessor::enqueue_references (lines 637-665), also returning
the blocking/notification events it performs: empty pending list returns at
once; otherwise, under the Heap_lock, swap the internal list into the runtime
slot, link the tail to the previous slot value, notify, and reset the internal
head and tail. -/
def enqueue_references (s : EnqueueState) : EnqueueState × List EnqueueEvent :=
  if s.pending_list = 0 then (s, [])
  else
    ({ pending_list := 0
       pending_list_tail := 0
       runtime_pending_slot := s.pending_list
       disc := updFn s.disc s.pending_list_tail s.runtime_pending_slot },
     [.lockHeapLock, .notifyAll])

/-- Steps of ZReferenceProcessor::process_references. -/
inductive ProcessStep where
  | runWorkerTasks
  | updateSoftReferenceClock
  | collectStatistics
  | logTimingTotals
deriving DecidableEq, BEq, Repr

/-- The straight-line body of ZReferenceProcessor::process_references
(lines 587-606) as the sequence of its steps: run the per-worker processing
tasks (lines 595-596), then soft_reference_update_clock (line 599, defined at
lines 108-112), then statistics collection and the timing log. -/
def process_references : List ProcessStep :=
  [.runWorkerTasks, .updateSoftReferenceClock, .collectStatistics, .logTimingTotals]

/-- Aggregator state: the shared pending-list head and tail (_pending_list,
_pending_list_tail) and the discovered fields that link the chains. -/
structure PendingAgg where
  head : Nat
  tail : Nat
  disc : Nat → Nat

/-- list_append (lines 122-133): append one reference to a keep chain given as
(head, tail), writing the previous tail's discovered field when non-empty. -/
def list_append (ht : Nat × Nat) (disc : Nat → Nat) (reference : Nat) :
    (Nat × Nat) × (Nat → Nat) :=
  if ht.1 = 0 then ((reference, reference), disc)
  else ((ht.1, reference), updFn disc ht.2 reference)

/-- The splice at the end of process_worker_discovered_list (lines 377-390):
nothing happens for an empty keep chain; otherwise atomically exchange the
shared head with the chain head, link the chain tail to the previous head, and
record the tail when the previous list was empty. -/
def splicePending (st : PendingAgg) (keep_head keep_tail : Nat) : PendingAgg :=
  if keep_head = 0 then st
  else
    { head := keep_head
      disc := updFn st.disc keep_tail st.head
      tail := if st.head = 0 then keep_tail else st.tail }

/-- Perform the splices of several workers' keep chains in the given order;
each chain is presented as the list of its references, head first. -/
def spliceAll (st : PendingAgg) (chains : List (List Nat)) : PendingAgg :=
  chains.foldl (fun acc c => splicePending acc (c.headD 0) (c.getLastD 0)) st

/-- The chain that starts at h and follows discovered fields to null is
exactly the list l. -/
def isChainB (disc : Nat → Nat) : Nat → List Nat → Bool
  | h, [] => h == 0
  | h, a :: l => h == a && a != 0 && isChainB disc (disc a) l

/-- Internal linkage of a keep chain: every element points (through disc) to
its successor in the list; the link out of the last element is unconstrained. -/
def linkedB (disc : Nat → Nat) : List Nat → Bool
  | [] => true
  | [_] => true
  | a :: b :: l => disc a == b && linkedB disc (b :: l)

/-- Empty per-worker discovery state (counters zero, empty array, empty list,
all reference fields null), used for concrete evaluations. -/
def s0model : DiscoverState where
  discovered_count := fun _ => 0
  weakArray := ⟨[], 0⟩
  array_empty := true
  discovered_list := 0
  refs := fun _ => ⟨0, 0, 0⟩

/-- Result of discovering the Weak reference at address 5 (referent 7, no
queue) in the empty state, with the compiled flag value. -/
def c2res : DiscoverState :=
  discOut (discover (fun _ => false) id id s0model 5 .REF_WEAK 7) s0model

/-- Barrier oracle on which every conditional clean fails (referents alive). -/
def barNoClean : ZBarrierModel := ⟨fun _ => false, fun _ => false, fun _ => false⟩

/-- Barrier oracle on which every conditional clean succeeds (referents dead). -/
def barAllClean : ZBarrierModel := ⟨fun _ => true, fun _ => true, fun _ => true⟩

/-- Heap oracle: everything old, nothing young, nothing strongly live. -/
def oracleAllDead : GCOracles :=
  ⟨fun _ => false, fun _ => true, fun _ => false, fun _ => false⟩

/-- Soft policy that always clears (AlwaysClearPolicy). -/
def polAlwaysClear : SoftRefPolicy := ⟨fun _ _ => true⟩

/-- Heap oracle for which exactly the zpointer value 1000 has a good mark. -/
def oracleMark1000 : GCOracles :=
  ⟨fun _ => false, fun _ => true, fun _ => false, fun p => p == 1000⟩

/-- Concrete field memory: referent field 10 holds zpointer 1000 (mark-good),
field 11 holds 1001; discovered fields hold 77. -/
def memC4 : FieldMem :=
  ⟨fun a => if a = 10 then 1000 else if a = 11 then 1001 else 0, fun _ => 77⟩

/-- Concrete two-record dense array: one record whose referent is reachable
under oracleMark1000, one whose referent is not. -/
def arrC4 : ZAddressArrayM := ⟨[⟨10, 20, 100⟩, ⟨11, 21, 101⟩], 8⟩

/-- Enqueue state with empty internal pending list and runtime slot 42. -/
def enqEmpty : EnqueueState := ⟨0, 0, 42, fun _ => 0⟩

/-- Aggregator state holding the pending chain 1 -> 2 -> null, with the
internal links of the worker chain [3, 4] already in place. -/
def aggW : PendingAgg :=
  ⟨1, 2, fun x => if x = 1 then 2 else if x = 3 then 4 else 0⟩

/-- Two worker keep chains, [3, 4] and [5]. -/
def chainsW : List (List Nat) := [[3, 4], [5]]

theorem ZAddressArrayM.append_recs (arr : ZAddressArrayM) (rec : DenseRec) :
    (arr.append rec).recs = arr.recs ++ [rec] := by
  unfold ZAddressArrayM.append
  split <;> rfl

theorem next_power_of_2_pred (n : Nat) :
    next_power_of_2 (n - 1) = round_up_power_of_2 n := by
  cases n with
  | zero =>
    show round_up_power_of_2 1 = round_up_power_of_2 0
    unfold round_up_power_of_2
    rw [Nat.clog_one_right, Nat.clog_zero_right]
  | succ k => rfl

/-- C7: for every n, clear_and_reserve(n) leaves the dense array with
length() == 0 and capacity() >= n, and the new capacity is exactly
max(8, next_pow2(n)) (next_pow2 being the smallest power of two >= n);
this holds for every argument, including n = 0. -/
theorem c7_clear_and_reserve (arr : ZAddressArrayM) (n : Nat) :
    (arr.clear_and_reserve n).recs.length = 0 ∧
    n ≤ (arr.clear_and_reserve n).capacity ∧
    (arr.clear_and_reserve n).capacity = max 8 (round_up_power_of_2 n) := by
  refine ⟨rfl, ?_, ?_⟩
  · show n ≤ max 8 (next_power_of_2 (n - 1))
    rw [next_power_of_2_pred]
    exact le_trans (Nat.le_pow_clog (by norm_num) n) (le_max_right _ _)
  · show max 8 (next_power_of_2 (n - 1)) = max 8 (round_up_power_of_2 n)
    rw [next_power_of_2_pred]

/-- C1 counterexample: in process_references the SoftReference clock update
does not precede the run of the per-worker processing tasks (it follows it),
refuting the claimed ordering. -/
theorem c1_counterexample :
    ¬ (process_references.indexOf ProcessStep.updateSoftReferenceClock <
        process_references.indexOf ProcessStep.runWorkerTasks) := by
  decide

/-- C1 (amended): in every collection cycle the SoftReference clock is
advanced exactly once, and the advance happens after the per-worker
processing tasks have been run by process_references. -/
theorem c1_clock_once_after_tasks :
    process_references.count ProcessStep.updateSoftReferenceClock = 1 ∧
    process_references.indexOf ProcessStep.runWorkerTasks <
      process_references.indexOf ProcessStep.updateSoftReferenceClock := by
  decide

/-- C9: when the internal pending list is empty, enqueue_references returns
immediately: no Heap_lock acquisition, no notification, the runtime-visible
pending slot is untouched, and the internal head and tail are unchanged
(still null). -/
theorem c9_enqueue_empty_noop (s : EnqueueState)
    (hhead : s.pending_list = 0) (htail : s.pending_list_tail = 0) :
    enqueue_references s = (s, []) ∧
    (enqueue_references s).1.pending_list = 0 ∧
    (enqueue_references s).1.pending_list_tail = 0 ∧
    (enqueue_references s).1.runtime_pending_slot = s.runtime_pending_slot ∧
    (enqueue_references s).2 = [] := by
  have h : enqueue_references s = (s, []) := by
    simp [enqueue_references, hhead]
  exact ⟨h, by rw [h]; exact hhead, by rw [h]; exact htail, by rw [h], by rw [h]⟩

/-- C9 witness: the empty-pending state with runtime slot 42 is a fixed point
of enqueue_references, with no lock or notify event. -/
theorem c9_witness :
    enqueue_references enqEmpty = (enqEmpty, []) ∧
    (enqueue_references enqEmpty).1.pending_list = 0 ∧
    (enqueue_references enqEmpty).1.pending_list_tail = 0 ∧
    (enqueue_references enqEmpty).1.runtime_pending_slot = enqEmpty.runtime_pending_slot ∧
    (enqueue_references enqEmpty).2 = [] :=
  c9_enqueue_empty_noop enqEmpty rfl rfl

/-- C10: a dense-array record with a null referent-field or discovered-field
address is skipped entirely by the drain loop: no field is written, the drop
count is not incremented, and processing continues with the remaining
records. -/
theorem c10_skip_null_field_record (O : GCOracles) (mem : FieldMem)
    (rec : DenseRec) (rest : List DenseRec) (dropped : Nat)
    (h : rec.refFieldAddr = 0 ∨ rec.discFieldAddr = 0) :
    drainLoop O mem (rec :: rest) dropped = drainLoop O mem rest dropped := by
  simp only [drainLoop]
  rw [if_pos h]

/-- C10 witness: a record with a null referent-field address is skipped by
the drain loop over the concrete two-record array. -/
theorem c10_witness :
    drainLoop oracleMark1000 memC4 (⟨0, 21, 101⟩ :: arrC4.recs) 0 =
      drainLoop oracleMark1000 memC4 arrC4.recs 0 :=
  c10_skip_null_field_record oracleMark1000 memC4 ⟨0, 21, 101⟩ arrC4.recs 0
    (Or.inl rfl)

/-- C2 counterexample: with the source's flag value
(UseGrowableArrayDiscoveredList = false) a Weak reference with no reference
queue does not take the dense-array fast path: discovering reference 5
(referent 7, hasQueue constantly false) leaves the dense array empty and
pushes the reference onto the intrusive discovered list (head becomes 5, its
discovered field takes the old head 0, not the self-loop 5). -/
theorem c2_counterexample :
    c2res.weakArray.recs.length = 0 ∧
    c2res.discovered_list = 5 ∧
    (c2res.refs 5).discovered = 0 ∧
    (c2res.refs 5).discovered ≠ 5 := by
  decide

/-- C2 (amended): when UseGrowableArrayDiscoveredList is enabled, discovering
a Weak reference with no reference queue appends the
(referent-field-address, discovered-field-address, referent-address) record to
the worker's dense array, clears the array-empty flag, and marks the reference
discovered with the self-loop sentinel, leaving the intrusive discovered list
and every other reference untouched; in the source the flag is constantly
false, so this path is not taken. -/
theorem c2_growable_fast_path (hasQueue : Nat → Bool) (rfa dfa : Nat → Nat)
    (s : DiscoverState) (reference referent : Nat)
    (hq : hasQueue reference = false) :
    UseGrowableArrayDiscoveredList = false ∧
    discFatal (discoverImpl true false hasQueue rfa dfa s reference .REF_WEAK referent) = false ∧
    (discOut (discoverImpl true false hasQueue rfa dfa s reference .REF_WEAK referent) s).weakArray.recs
      = s.weakArray.recs ++ [⟨rfa reference, dfa reference, referent⟩] ∧
    ((discOut (discoverImpl true false hasQueue rfa dfa s reference .REF_WEAK referent) s).refs reference).discovered
      = reference ∧
    (discOut (discoverImpl true false hasQueue rfa dfa s reference .REF_WEAK referent) s).discovered_list
      = s.discovered_list ∧
    (discOut (discoverImpl true false hasQueue rfa dfa s reference .REF_WEAK referent) s).array_empty = false ∧
    ∀ a, a ≠ reference →
      (discOut (discoverImpl true false hasQueue rfa dfa s reference .REF_WEAK referent) s).refs a
        = s.refs a := by
  have heq : discoverImpl true false hasQueue rfa dfa s reference .REF_WEAK referent
      = .ok { discovered_count := bumpCount s.discovered_count .REF_WEAK
              weakArray := s.weakArray.append ⟨rfa reference, dfa reference, referent⟩
              array_empty := false
              discovered_list := s.discovered_list
              refs := setDiscovered s.refs reference reference } := by
    simp [discoverImpl, hq]
  refine ⟨rfl, ?_, ?_, ?_, ?_, ?_, ?_⟩
  · rw [heq]; rfl
  · rw [heq]; exact ZAddressArrayM.append_recs _ _
  · rw [heq]; simp [discOut, setDiscovered]
  · rw [heq]; rfl
  · rw [heq]; rfl
  · rw [heq]; intro a ha; simp [discOut, setDiscovered, ha]

/-- C2 witness: the amended fast-path behaviour evaluated on the empty state
and reference 5 with referent 7. -/
theorem c2_witness :
    UseGrowableArrayDiscoveredList = false ∧
    discFatal (discoverImpl true false (fun _ => false) id id s0model 5 .REF_WEAK 7) = false ∧
    (discOut (discoverImpl true false (fun _ => false) id id s0model 5 .REF_WEAK 7) s0model).weakArray.recs
      = s0model.weakArray.recs ++ [⟨id 5, id 5, 7⟩] ∧
    ((discOut (discoverImpl true false (fun _ => false) id id s0model 5 .REF_WEAK 7) s0model).refs 5).discovered = 5 ∧
    (discOut (discoverImpl true false (fun _ => false) id id s0model 5 .REF_WEAK 7) s0model).discovered_list
      = s0model.discovered_list := by
  have h := c2_growable_fast_path (fun _ => false) id id s0model 5 7 rfl
  exact ⟨h.1, h.2.1, h.2.2.1, h.2.2.2.1, h.2.2.2.2.1⟩

/-- C3 counterexample: a Final reference that is dropped during processing
(try_make_inactive returns false because the conditional final clean fails,
the referent being still alive) does not have next == self: its next field is
still null, refuting the claimed direction. -/
theorem c3_counterexample :
    tmiOut (try_make_inactive barNoClean 5 .REF_FINAL ⟨7, 0, 0⟩)
      = some (false, ⟨7, 0, 0⟩) ∧
    ZRef.next ⟨7, 0, 0⟩ ≠ 5 := by
  decide

/-- C3 (amended): a Final reference that is kept during processing
(try_make_inactive succeeds, the reference being enqueued) has next == self,
and while next == self the reference is never discovered again:
should_discover returns false for it. -/
theorem c3_final_kept_self_loop (bar : ZBarrierModel) (reference : Nat)
    (r r' : ZRef) (href : reference ≠ 0)
    (hk : try_make_inactive bar reference .REF_FINAL r = .ok (true, r')) :
    r'.next = reference ∧
    ∀ (O : GCOracles) (pol : SoftRefPolicy) (clock : Int) (refs : Nat → ZRef)
      (referent : Nat), refs reference = r' →
        should_discover O pol clock refs reference .REF_FINAL referent = false := by
  have hnext : r'.next = reference := by
    simp only [try_make_inactive] at hk
    split_ifs at hk <;> simp_all
    subst hk
    rfl
  refine ⟨hnext, ?_⟩
  intro O pol clock refs referent hre
  have hin : is_inactive refs reference referent .REF_FINAL = true := by
    simp [is_inactive, hre, hnext, bne_iff_ne, href]
  simp [should_discover, hin]

/-- C3 witness: with a succeeding final clean, the Final reference at address
5 is kept with next field 5 (itself), and should_discover refuses it. -/
theorem c3_witness :
    ZRef.next ⟨7, 0, 5⟩ = 5 ∧
    should_discover oracleAllDead polAlwaysClear 0 (fun _ => ⟨7, 0, 5⟩) 5
      .REF_FINAL 7 = false := by
  have h := c3_final_kept_self_loop barAllClean 5 ⟨7, 0, 0⟩ ⟨7, 0, 5⟩
    (by decide) (by rfl)
  exact ⟨h.1, h.2 oracleAllDead polAlwaysClear 0 (fun _ => ⟨7, 0, 5⟩) 7 rfl⟩

/-- C5: for a reference in the generation being collected (not young),
should_discover returns false exactly when the reference is inactive
(non-Final with null referent, or Final with non-null next), or the referent
is strongly live, or the type is Soft and the active policy says to keep it
for the current clock; in all other cases it returns true. -/
theorem c5_should_discover_iff (O : GCOracles) (pol : SoftRefPolicy)
    (clock : Int) (refs : Nat → ZRef) (reference : Nat) (t : ReferenceType)
    (referent : Nat) (hold : O.is_young reference = false) :
    should_discover O pol clock refs reference t referent = false ↔
      ((t ≠ .REF_FINAL ∧ referent = 0)
        ∨ (t = .REF_FINAL ∧ (refs reference).next ≠ 0)
        ∨ is_strongly_live O referent = true
        ∨ (t = .REF_SOFT ∧ pol.should_clear_reference reference clock = false)) := by
  unfold should_discover is_inactive is_softly_live
  cases t <;>
    by_cases h1 : referent = 0 <;>
    by_cases h2 : is_strongly_live O referent = true <;>
    by_cases h3 : pol.should_clear_reference reference clock = true <;>
    by_cases h4 : (refs reference).next = 0 <;>
    simp_all

/-- C5 witness: a Weak reference at old address 5 with non-null, dead referent
7 is discovered (should_discover true), matching the characterization. -/
theorem c5_witness :
    oracleAllDead.is_young 5 = false ∧
    (should_discover oracleAllDead polAlwaysClear 0 (fun _ => ⟨7, 0, 0⟩) 5
        .REF_WEAK 7 = false ↔
      ((ReferenceType.REF_WEAK ≠ .REF_FINAL ∧ (7 : Nat) = 0)
        ∨ (ReferenceType.REF_WEAK = .REF_FINAL ∧ (ZRef.next ⟨7, 0, 0⟩) ≠ 0)
        ∨ is_strongly_live oracleAllDead 7 = true
        ∨ (ReferenceType.REF_WEAK = .REF_SOFT ∧
            polAlwaysClear.should_clear_reference 5 0 = false))) :=
  ⟨rfl, c5_should_discover_iff oracleAllDead polAlwaysClear 0 (fun _ => ⟨7, 0, 0⟩)
    5 .REF_WEAK 7 rfl⟩

/-- C8 counterexample: discovering a reference whose type tag is REF_NONE
(not Soft/Weak/Final/Phantom), with trace logging disabled as by default, does
not abort: the call succeeds and silently records the reference on the
worker's intrusive discovered list. -/
theorem c8_counterexample :
    discFatal (discover (fun _ => false) id id s0model 6 .REF_NONE 9) = false ∧
    (discOut (discover (fun _ => false) id id s0model 6 .REF_NONE 9) s0model).discovered_list = 6 ∧
    ((discOut (discover (fun _ => false) id id s0model 6 .REF_NONE 9) s0model).refs 6).discovered = 0 := by
  decide

/-- C8 (amended): discover with an unrecognized type tag does not abort (with
trace logging disabled, the default): it records the reference on the
intrusive discovered list; the process-aborting invariant violation for an
unrecognized tag is raised later, when the reference is processed:
try_make_inactive hits the fatal("Invalid referent type") branch. -/
theorem c8_unknown_tag_fatal_on_processing (bar : ZBarrierModel)
    (hasQueue : Nat → Bool) (rfa dfa : Nat → Nat) (s : DiscoverState)
    (reference referent : Nat) (t : ReferenceType) (r : ZRef)
    (hu : isKnownReferenceType t = false) (hr : r.referent ≠ 0) :
    discFatal (discover hasQueue rfa dfa s reference t referent) = false ∧
    (discOut (discover hasQueue rfa dfa s reference t referent) s).discovered_list
      = reference ∧
    try_make_inactive bar reference t r = .error () := by
  refine ⟨?_, ?_, ?_⟩
  · simp [discover, discoverImpl, UseGrowableArrayDiscoveredList, discFatal]
  · simp [discover, discoverImpl, UseGrowableArrayDiscoveredList, discOut]
  · cases t <;> simp_all [try_make_inactive, isKnownReferenceType]

/-- C8 witness: the amended behaviour evaluated at tag REF_NONE, reference 6
and a reference object with live referent 7. -/
theorem c8_witness :
    discFatal (discover (fun _ => false) id id s0model 6 .REF_NONE 9) = false ∧
    (discOut (discover (fun _ => false) id id s0model 6 .REF_NONE 9) s0model).discovered_list = 6 ∧
    try_make_inactive barNoClean 6 .REF_NONE ⟨7, 0, 0⟩ = .error () := by
  have h := c8_unknown_tag_fatal_on_processing barNoClean (fun _ => false) id id
    s0model 6 9 .REF_NONE ⟨7, 0, 0⟩ rfl (by decide)
  exact ⟨h.1, h.2.1, h.2.2⟩

theorem drainLoop_zptr_frame (O : GCOracles) :
    ∀ (recs : List DenseRec) (mem : FieldMem) (dropped a : Nat),
      a ∉ recs.map DenseRec.refFieldAddr →
      ((drainLoop O mem recs dropped).1).zptr a = mem.zptr a := by
  intro recs
  induction recs with
  | nil => intro mem dropped a _; rfl
  | cons rec rest ih =>
    intro mem dropped a ha
    rw [List.map_cons, List.mem_cons, not_or] at ha
    obtain ⟨ha1, ha2⟩ := ha
    simp only [drainLoop]
    by_cases h0 : rec.refFieldAddr = 0 ∨ rec.discFieldAddr = 0
    · rw [if_pos h0]; exact ih mem dropped a ha2
    · rw [if_neg h0]
      by_cases hreach : recReachable O mem rec = true
      · rw [if_pos hreach]
        rw [ih _ _ a ha2]
      · rw [if_neg hreach]
        rw [ih _ _ a ha2]
        simp [updFn, ha1]

theorem drainLoop_zaddr_preserves_zero (O : GCOracles) :
    ∀ (recs : List DenseRec) (mem : FieldMem) (dropped a : Nat),
      mem.zaddr a = 0 →
      ((drainLoop O mem recs dropped).1).zaddr a = 0 := by
  intro recs
  induction recs with
  | nil => intro mem dropped a h; exact h
  | cons rec rest ih =>
    intro mem dropped a h
    simp only [drainLoop]
    by_cases h0 : rec.refFieldAddr = 0 ∨ rec.discFieldAddr = 0
    · rw [if_pos h0]; exact ih mem dropped a h
    · rw [if_neg h0]
      by_cases hreach : recReachable O mem rec = true
      · rw [if_pos hreach]
        apply ih
        by_cases had : a = rec.discFieldAddr <;> simp [updFn, had, h]
      · rw [if_neg hreach]
        exact ih _ _ a h

theorem drainLoop_record_spec (O : GCOracles) :
    ∀ (recs : List DenseRec) (mem : FieldMem) (dropped : Nat),
      (∀ rec ∈ recs, rec.refFieldAddr ≠ 0 ∧ rec.discFieldAddr ≠ 0) →
      (recs.map DenseRec.refFieldAddr).Nodup →
      ∀ rec ∈ recs,
        (recReachable O mem rec = true →
          ((drainLoop O mem recs dropped).1).zaddr rec.discFieldAddr = 0 ∧
          ((drainLoop O mem recs dropped).1).zptr rec.refFieldAddr
            = mem.zptr rec.refFieldAddr) ∧
        (recReachable O mem rec = false →
          ((drainLoop O mem recs dropped).1).zptr rec.refFieldAddr = 0) := by
  intro recs
  induction recs with
  | nil => intro mem dropped _ _ rec hrec; cases hrec
  | cons r0 rest ih =>
    intro mem dropped hvalid hnd rec hrec
    have hv0 := hvalid r0 (List.mem_cons_self _ _)
    rw [List.map_cons] at hnd
    obtain ⟨hnd1, hndrest⟩ := List.nodup_cons.mp hnd
    have hstep_skip : ¬ (r0.refFieldAddr = 0 ∨ r0.discFieldAddr = 0) :=
      not_or.mpr hv0
    have hvalidR : ∀ rc ∈ rest, rc.refFieldAddr ≠ 0 ∧ rc.discFieldAddr ≠ 0 :=
      fun rc h => hvalid rc (List.mem_cons_of_mem _ h)
    by_cases hreach0 : recReachable O mem r0 = true
    · have hloop : drainLoop O mem (r0 :: rest) dropped
          = drainLoop O { mem with zaddr := updFn mem.zaddr r0.discFieldAddr 0 }
              rest (dropped + 1) := by
        simp only [drainLoop]; rw [if_neg hstep_skip, if_pos hreach0]
      rcases List.mem_cons.mp hrec with hrec0 | hrecR
      · subst hrec0
        refine ⟨fun _ => ⟨?_, ?_⟩, fun hfalse => ?_⟩
        · rw [hloop]
          apply drainLoop_zaddr_preserves_zero
          simp [updFn]
        · rw [hloop]
          rw [drainLoop_zptr_frame O rest _ (dropped + 1) _ hnd1]
        · rw [hreach0] at hfalse; cases hfalse
      · have ihr := ih { mem with zaddr := updFn mem.zaddr r0.discFieldAddr 0 }
          (dropped + 1) hvalidR hndrest rec hrecR
        rw [hloop]
        exact ihr
    · have hreach0' : recReachable O mem r0 = false := by
        revert hreach0; cases recReachable O mem r0 <;> simp
      have hloop : drainLoop O mem (r0 :: rest) dropped
          = drainLoop O { mem with zptr := updFn mem.zptr r0.refFieldAddr 0 }
              rest dropped := by
        simp only [drainLoop]; rw [if_neg hstep_skip, if_neg hreach0]
      rcases List.mem_cons.mp hrec with hrec0 | hrecR
      · subst hrec0
        refine ⟨fun htrue => ?_, fun _ => ?_⟩
        · rw [hreach0'] at htrue; cases htrue
        · rw [hloop]
          rw [drainLoop_zptr_frame O rest _ dropped _ hnd1]
          simp [updFn]
      · have hne : rec.refFieldAddr ≠ r0.refFieldAddr := by
          intro he
          exact hnd1 (he ▸ List.mem_map_of_mem DenseRec.refFieldAddr hrecR)
        have hzp : ({ mem with zptr := updFn mem.zptr r0.refFieldAddr 0 }).zptr
            rec.refFieldAddr = mem.zptr rec.refFieldAddr := by
          simp [updFn, hne]
        have ihr := ih { mem with zptr := updFn mem.zptr r0.refFieldAddr 0 }
          dropped hvalidR hndrest rec hrecR
        have hrx : recReachable O { mem with zptr := updFn mem.zptr r0.refFieldAddr 0 } rec
            = recReachable O mem rec := by
          simp [recReachable, is_strongly_reachable_fast, updFn, hne]
        rw [hrx, hzp] at ihr
        rw [hloop]
        exact ihr

/-- C4: during the dense-array drain (with well-formed records: non-null,
pairwise distinct referent-field addresses), every record whose referent is
strongly reachable at processing time is dropped by writing null into its
discovered field while its referent field is left unchanged; every record
whose referent is still unreachable has its referent field set to null; and
all records are dropped from the array (it is left empty). -/
theorem c4_dense_array_drain (O : GCOracles) (mem : FieldMem)
    (arr : ZAddressArrayM)
    (hvalid : ∀ rec ∈ arr.recs, rec.refFieldAddr ≠ 0 ∧ rec.discFieldAddr ≠ 0)
    (hnd : (arr.recs.map DenseRec.refFieldAddr).Nodup) :
    (process_weak_refs_without_queue O mem arr).2.recs = [] ∧
    ∀ rec ∈ arr.recs,
      (recReachable O mem rec = true →
        (process_weak_refs_without_queue O mem arr).1.zaddr rec.discFieldAddr = 0 ∧
        (process_weak_refs_without_queue O mem arr).1.zptr rec.refFieldAddr
          = mem.zptr rec.refFieldAddr) ∧
      (recReachable O mem rec = false →
        (process_weak_refs_without_queue O mem arr).1.zptr rec.refFieldAddr = 0) := by
  exact ⟨rfl, fun rec hrec => drainLoop_record_spec O arr.recs mem 0 hvalid hnd rec hrec⟩

/-- C4 witness: on the concrete two-record array, the reachable record
(referent field 10, mark-good zpointer 1000) gets its discovered field 20
nulled with referent field untouched, the unreachable record gets referent
field 11 cleared, and the array ends empty. -/
theorem c4_witness :
    (process_weak_refs_without_queue oracleMark1000 memC4 arrC4).2.recs = [] ∧
    (process_weak_refs_without_queue oracleMark1000 memC4 arrC4).1.zaddr 20 = 0 ∧
    (process_weak_refs_without_queue oracleMark1000 memC4 arrC4).1.zptr 10
      = memC4.zptr 10 ∧
    (process_weak_refs_without_queue oracleMark1000 memC4 arrC4).1.zptr 11 = 0 := by
  have h := c4_dense_array_drain oracleMark1000 memC4 arrC4 (by decide) (by decide)
  have h1 := (h.2 ⟨10, 20, 100⟩ (by decide)).1 (by decide)
  have h2 := (h.2 ⟨11, 21, 101⟩ (by decide)).2 (by decide)
  exact ⟨h.1, h1.1, h1.2, h2⟩

theorem getLastD_mem : ∀ (l : List Nat) (d : Nat), l ≠ [] → l.getLastD d ∈ l := by
  intro l
  induction l with
  | nil => intro d h; exact absurd rfl h
  | cons a l ih =>
    intro d _
    cases l with
    | nil => exact List.mem_cons_self _ _
    | cons b l2 => exact List.mem_cons_of_mem a (ih a (by simp))

theorem isChainB_cons (disc : Nat → Nat) (h x : Nat) (l : List Nat) :
    isChainB disc h (x :: l) = (h == x && x != 0 && isChainB disc (disc x) l) :=
  rfl

theorem isChainB_updFn (disc : Nat → Nat) (x v : Nat) :
    ∀ (l : List Nat) (h : Nat), x ∉ l → isChainB disc h l = true →
      isChainB (updFn disc x v) h l = true := by
  intro l
  induction l with
  | nil => intro h _ hc; exact hc
  | cons a l ih =>
    intro h hx hc
    rw [List.mem_cons, not_or] at hx
    obtain ⟨hxa, hxl⟩ := hx
    rw [isChainB_cons, Bool.and_eq_true, Bool.and_eq_true] at hc ⊢
    obtain ⟨⟨h1, h2⟩, h3⟩ := hc
    have hux : updFn disc x v a = disc a := by
      unfold updFn
      rw [if_neg (Ne.symm hxa)]
    exact ⟨⟨h1, h2⟩, by rw [hux]; exact ih (disc a) hxl h3⟩

theorem linkedB_updFn (disc : Nat → Nat) (x v : Nat) :
    ∀ (l : List Nat), x ∉ l → linkedB disc l = true →
      linkedB (updFn disc x v) l = true := by
  intro l
  induction l with
  | nil => intro _ _; rfl
  | cons a l ih =>
    intro hx hl
    cases l with
    | nil => rfl
    | cons b l2 =>
      rw [List.mem_cons, not_or] at hx
      obtain ⟨hxa, hxl⟩ := hx
      simp only [linkedB, Bool.and_eq_true] at hl ⊢
      obtain ⟨h1, h2⟩ := hl
      have hux : updFn disc x v a = disc a := by
        unfold updFn
        rw [if_neg (Ne.symm hxa)]
      exact ⟨by rw [hux]; exact h1, ih hxl h2⟩

theorem chain_splice (disc : Nat → Nat) :
    ∀ (c P : List Nat) (h : Nat), c ≠ [] →
      (∀ a ∈ c, a ≠ 0) → (c ++ P).Nodup →
      linkedB disc c = true → isChainB disc h P = true →
      isChainB (updFn disc (c.getLastD 0) h) (c.headD 0) (c ++ P) = true := by
  intro c
  induction c with
  | nil => intro P h hne; exact absurd rfl hne
  | cons a c2 ih =>
    intro P h _ hnz hnd hlink hP
    have h1 : (a == a) = true := beq_self_eq_true a
    have h2 : (a != 0) = true := bne_iff_ne.mpr (hnz a (List.mem_cons_self _ _))
    cases c2 with
    | nil =>
      have ha_notin : a ∉ P := (List.nodup_cons.mp (by simpa using hnd)).1
      show (a == a && a != 0 && isChainB (updFn disc a h) (updFn disc a h a) P) = true
      rw [h1, h2]
      simp only [Bool.true_and]
      have hupd : updFn disc a h a = h := by
        unfold updFn
        rw [if_pos rfl]
      rw [hupd]
      exact isChainB_updFn disc a h P h ha_notin hP
    | cons b c3 =>
      have ha_notin : a ∉ (b :: c3) ++ P :=
        (List.nodup_cons.mp (by simpa using hnd)).1
      have hlast_mem : (b :: c3).getLastD 0 ∈ b :: c3 := getLastD_mem _ 0 (by simp)
      have hne_a_last : a ≠ (b :: c3).getLastD 0 := by
        intro he
        exact ha_notin (List.mem_append_left P (he ▸ hlast_mem))
      have hupd_a : updFn disc ((b :: c3).getLastD 0) h a = disc a := by
        unfold updFn
        rw [if_neg hne_a_last]
      have hab : disc a = b := by
        simp only [linkedB, Bool.and_eq_true, beq_iff_eq] at hlink
        exact hlink.1
      have hlink2 : linkedB disc (b :: c3) = true := by
        simp only [linkedB, Bool.and_eq_true] at hlink
        exact hlink.2
      have hrec := ih P h (by simp)
        (fun x hx => hnz x (List.mem_cons_of_mem _ hx))
        ((List.nodup_cons.mp (by simpa using hnd)).2) hlink2 hP
      show (a == a && a != 0 &&
          isChainB (updFn disc ((b :: c3).getLastD 0) h)
            (updFn disc ((b :: c3).getLastD 0) h a) ((b :: c3) ++ P)) = true
      rw [h1, h2]
      simp only [Bool.true_and]
      rw [hupd_a, hab]
      exact hrec

theorem spliceAll_chain :
    ∀ (chains : List (List Nat)) (st : PendingAgg) (P : List Nat),
      isChainB st.disc st.head P = true →
      (∀ c ∈ chains, c ≠ []) →
      (∀ c ∈ chains, ∀ a ∈ c, a ≠ 0) →
      (∀ c ∈ chains, linkedB st.disc c = true) →
      (chains.flatten ++ P).Nodup →
      isChainB (spliceAll st chains).disc (spliceAll st chains).head
        (chains.reverse.flatten ++ P) = true := by
  intro chains
  induction chains with
  | nil => intro st P hP _ _ _ _; exact hP
  | cons c cs ih =>
    intro st P hP hne hnz hlink hnd
    have hcne : c ≠ [] := hne c (List.mem_cons_self _ _)
    have hhead_mem : c.headD 0 ∈ c := by
      cases c with
      | nil => exact absurd rfl hcne
      | cons a l => exact List.mem_cons_self _ _
    have hhead_ne : c.headD 0 ≠ 0 := hnz c (List.mem_cons_self _ _) _ hhead_mem
    have hst1 : splicePending st (c.headD 0) (c.getLastD 0)
        = { head := c.headD 0
            disc := updFn st.disc (c.getLastD 0) st.head
            tail := if st.head = 0 then c.getLastD 0 else st.tail } := by
      unfold splicePending
      rw [if_neg hhead_ne]
    have hndA : (c ++ (cs.flatten ++ P)).Nodup := by
      rw [List.flatten_cons, List.append_assoc] at hnd
      exact hnd
    have hnd_cP : (c ++ P).Nodup :=
      List.Nodup.sublist
        (List.Sublist.append_left (List.sublist_append_right cs.flatten P) c) hndA
    have hdisj : List.Disjoint c (cs.flatten ++ P) := (List.nodup_append.mp hndA).2.2
    have hchain1 := chain_splice st.disc c P st.head hcne
      (hnz c (List.mem_cons_self _ _)) hnd_cP (hlink c (List.mem_cons_self _ _)) hP
    have hndB : (cs.flatten ++ (c ++ P)).Nodup := by
      refine List.Nodup.perm hndA ?_
      have he1 : c ++ (cs.flatten ++ P) = (c ++ cs.flatten) ++ P :=
        (List.append_assoc _ _ _).symm
      have he2 : cs.flatten ++ (c ++ P) = (cs.flatten ++ c) ++ P :=
        (List.append_assoc _ _ _).symm
      rw [he1, he2]
      exact List.Perm.append_right P List.perm_append_comm
    have hL : (c :: cs).reverse.flatten ++ P = cs.reverse.flatten ++ (c ++ P) := by
      rw [List.reverse_cons, List.flatten_append, List.append_assoc]
      simp
    have hfold : spliceAll st (c :: cs)
        = spliceAll (splicePending st (c.headD 0) (c.getLastD 0)) cs := rfl
    rw [hfold, hL]
    apply ih (splicePending st (c.headD 0) (c.getLastD 0)) (c ++ P)
    · rw [hst1]; exact hchain1
    · exact fun c' h => hne c' (List.mem_cons_of_mem _ h)
    · exact fun c' h => hnz c' (List.mem_cons_of_mem _ h)
    · intro c' hc'
      rw [hst1]
      refine linkedB_updFn st.disc (c.getLastD 0) st.head c' ?_
        (hlink c' (List.mem_cons_of_mem _ hc'))
      intro hmem
      have hx_in_c : c.getLastD 0 ∈ c := getLastD_mem c 0 hcne
      have hx_in_flat : c.getLastD 0 ∈ cs.flatten := List.mem_flatten.mpr ⟨c', hc', hmem⟩
      exact hdisj hx_in_c (List.mem_append_left P hx_in_flat)
    · exact hndB

/-- C6: splicing K workers' non-empty keep chains (with their internal links
in place, all entries non-null and globally duplicate-free) onto a pending
list that already holds the chain p, in any order, yields a pending list that
is a single null-terminated chain, without duplicates (hence acyclic), of
length p.length plus the sum of the chain lengths, containing exactly the
union of the original list and all chains. -/
theorem c6_aggregation (st : PendingAgg) (p : List Nat) (chains : List (List Nat))
    (hp : isChainB st.disc st.head p = true)
    (hne : ∀ c ∈ chains, c ≠ [])
    (hnz : ∀ c ∈ chains, ∀ a ∈ c, a ≠ 0)
    (hlink : ∀ c ∈ chains, linkedB st.disc c = true)
    (hnd : (chains.flatten ++ p).Nodup) :
    isChainB (spliceAll st chains).disc (spliceAll st chains).head
      (chains.reverse.flatten ++ p) = true ∧
    (chains.reverse.flatten ++ p).Nodup ∧
    (chains.reverse.flatten ++ p).length
      = p.length + (chains.map List.length).sum ∧
    ∀ x, x ∈ chains.reverse.flatten ++ p ↔ (x ∈ p ∨ ∃ c ∈ chains, x ∈ c) := by
  refine ⟨spliceAll_chain chains st p hp hne hnz hlink hnd, ?_, ?_, ?_⟩
  · exact List.Nodup.perm hnd
      (List.Perm.append_right p (List.Perm.flatten (List.reverse_perm chains).symm))
  · rw [List.length_append, List.length_flatten, List.map_reverse, List.sum_reverse]
    omega
  · intro x
    rw [List.mem_append, List.mem_flatten]
    constructor
    · rintro (⟨l, hl, hx⟩ | hx)
      · exact Or.inr ⟨l, List.mem_reverse.mp hl, hx⟩
      · exact Or.inl hx
    · rintro (hx | ⟨l, hl, hx⟩)
      · exact Or.inr hx
      · exact Or.inl ⟨l, List.mem_reverse.mpr hl, hx⟩

/-- C6 witness: splicing the keep chains [3, 4] and [5] onto the pending list
1 -> 2 yields the single duplicate-free chain [5, 3, 4, 1, 2] of length
2 + (2 + 1). -/
theorem c6_witness :
    isChainB (spliceAll aggW chainsW).disc (spliceAll aggW chainsW).head
      (chainsW.reverse.flatten ++ [1, 2]) = true ∧
    (chainsW.reverse.flatten ++ [1, 2]).Nodup ∧
    (chainsW.reverse.flatten ++ [1, 2]).length
      = [1, 2].length + (chainsW.map List.length).sum := by
  have h := c6_aggregation aggW [1, 2] chainsW (by decide) (by decide) (by decide)
    (by decide) (by decide)
  exact ⟨h.1, h.2.1, h.2.2.1⟩
